import Mathlib

/-!
Shallow embedding of the locomotion and procedural-animation engine of
`src/types/Character.ts` (the `useFrame` body of `Avatar3D`), together with
proofs about it.

Conventions:
* The engine only ever touches the `x` and `z` components of THREE.js
  vectors (the `y` component stays `0` throughout: acceleration, friction
  and the stop snap write only `x`/`z`, and rescaling a vector whose `y`
  is `0` keeps it `0`), so vectors are modelled as ground-plane pairs.
* JavaScript numbers are modelled as real numbers.
* `Math.random()` results are passed in as explicit real parameters
  (with hypotheses `0 ≤ r` and `r < 1` where a theorem needs them).
-/

namespace NuralPy

/-- Ground-plane vector: the `x` and `z` components of a `THREE.Vector3`
whose `y` component the engine never modifies. -/
structure Vec2 where
  x : ℝ
  z : ℝ

/-- `new THREE.Vector3(0, 0, 0)`, restricted to the ground plane. -/
def Vec2.zero : Vec2 := ⟨0, 0⟩

/-- `THREE.Vector3.length()` on the ground plane. -/
noncomputable def Vec2.length (v : Vec2) : ℝ := Real.sqrt (v.x ^ 2 + v.z ^ 2)

/-- `THREE.Vector3.multiplyScalar(k)`. -/
def Vec2.scale (v : Vec2) (k : ℝ) : Vec2 := ⟨v.x * k, v.z * k⟩

/-- `THREE.Vector3.normalize()`: THREE divides by `length || 1`, so the zero
vector is left unchanged and every other vector is divided by its length. -/
noncomputable def Vec2.normalize (v : Vec2) : Vec2 :=
  if v.length = 0 then v else ⟨v.x / v.length, v.z / v.length⟩

/-- `THREE.Vector3.subVectors(a, b)` (componentwise `a - b`). -/
def Vec2.sub (a b : Vec2) : Vec2 := ⟨a.x - b.x, a.z - b.z⟩

/-- `a.distanceTo(b)` for points on the ground plane (both `y` components
are `0` for every vector the engine compares). -/
noncomputable def Vec2.dist (a b : Vec2) : ℝ := (Vec2.sub a b).length

/-- `const speed = 4.0` (Character.ts line 161). -/
def speed : ℝ := 4.0

/-- `const acceleration = 15.0` (Character.ts line 162). -/
def acceleration : ℝ := 15.0

/-- `const friction = 10.0` (Character.ts line 163). -/
def friction : ℝ := 10.0

/-- `const maxSpeed = isPlayerControlled ? speed : 2.5` (line 282). -/
def maxSpeed (isPlayerControlled : Bool) : ℝ :=
  if isPlayerControlled then speed else 2.5

/-- `THREE.MathUtils.clamp(value, lo, hi) = Math.max(lo, Math.min(hi, value))`. -/
noncomputable def clamp (value lo hi : ℝ) : ℝ := max lo (min hi value)

/-- `Math.atan2(y, x)`: the argument of the point `(x, y)`, in `(-π, π]`. -/
noncomputable def atan2 (y x : ℝ) : ℝ := Complex.arg (x + y * Complex.I)

/-- Closed form of the two normalization while-loops (lines 268-269):
`while (angleDiff > Math.PI) angleDiff -= Math.PI * 2` runs
`⌈(a - π)/(2π)⌉` times when `a > π`, and
`while (angleDiff < -Math.PI) angleDiff += Math.PI * 2` runs
`⌈(-π - a)/(2π)⌉` times when `a < -π`; at most one of the two loops runs. -/
noncomputable def normalizeAngle (a : ℝ) : ℝ :=
  if Real.pi < a then a - 2 * Real.pi * (⌈(a - Real.pi) / (2 * Real.pi)⌉ : ℝ)
  else if a < -Real.pi then a + 2 * Real.pi * (⌈(-Real.pi - a) / (2 * Real.pi)⌉ : ℝ)
  else a

/-- Agent physics state: `groupRef.current.position` (ground plane),
`velocity.current` (ground plane), and `groupRef.current.rotation.y`. -/
structure AgentState where
  pos : Vec2
  vel : Vec2
  facing : ℝ

/-- Step 1 (lines 258-261): acceleration, applied only when the movement
intent is nonzero. -/
noncomputable def accelStep (vel m : Vec2) (safeDelta : ℝ) : Vec2 :=
  if 0 < m.length then
    ⟨vel.x + m.x * acceleration * safeDelta, vel.z + m.z * acceleration * safeDelta⟩
  else vel

/-- Rotation (lines 263-272): damped turn toward `atan2(m.x, m.z)`, applied
only when the movement intent is nonzero. -/
noncomputable def rotationStep (facing : ℝ) (m : Vec2) (safeDelta : ℝ) : ℝ :=
  if 0 < m.length then
    facing + normalizeAngle (atan2 m.x m.z - facing) * safeDelta * 10
  else facing

/-- Step 2 (lines 275-279): exponential friction decay
`v *= exp(-friction * safeDelta)`. -/
noncomputable def frictionStep (vel : Vec2) (safeDelta : ℝ) : Vec2 :=
  let dampingFactor := Real.exp (-friction * safeDelta)
  ⟨vel.x * dampingFactor, vel.z * dampingFactor⟩

/-- Step 3 (lines 281-285): speed cap — rescale to `maxSpeed` when faster. -/
noncomputable def capStep (isPlayerControlled : Bool) (vel : Vec2) : Vec2 :=
  if maxSpeed isPlayerControlled < vel.length then
    (vel.normalize).scale (maxSpeed isPlayerControlled)
  else vel

/-- Step 4 (lines 287-295), velocity part: stop snap — zero the velocity
exactly when it is below the threshold and there is no movement intent.
`vel` is the post-cap velocity. -/
noncomputable def snapStep (vel m : Vec2) : Vec2 :=
  if vel.length < 0.05 then (if m.length = 0 then Vec2.zero else vel) else vel

/-- Step 4 (lines 287-295), `isMoving` part: `isMoving` starts `false`
(line 198), is set `true` in step 1 when the intent is nonzero (line 259),
and is then rewritten by the stop-snap branch. `vel` is the post-cap
velocity. -/
noncomputable def movingFlag (vel m : Vec2) : Bool :=
  if vel.length < 0.05 then
    (if m.length = 0 then false else (if 0 < m.length then true else false))
  else true

/-- Steps 5-6 (lines 299-305): position integration `p += v * safeDelta`
followed by the boundary clamp to `[-bound, bound]` with
`bound = worldSize / 2 - 0.5`. -/
noncomputable def positionStep (worldSize : ℝ) (pos vel : Vec2) (safeDelta : ℝ) : Vec2 :=
  let bound := worldSize / 2 - 0.5
  ⟨clamp (pos.x + vel.x * safeDelta) (-bound) bound,
   clamp (pos.z + vel.z * safeDelta) (-bound) bound⟩

/-- One frame of the unified physics engine (lines 185-305): clamp `delta`
to at most 0.1 s (line 188), then acceleration, rotation, friction, speed
cap, stop snap, position integration and boundary clamp, returning the new
state and the `isMoving` flag. -/
noncomputable def physicsStep (isPlayerControlled : Bool) (worldSize : ℝ)
    (s : AgentState) (m : Vec2) (delta : ℝ) : AgentState × Bool :=
  let safeDelta := min delta 0.1
  let v3 := capStep isPlayerControlled (frictionStep (accelStep s.vel m safeDelta) safeDelta)
  let v4 := snapStep v3 m
  (⟨positionStep worldSize s.pos v4 safeDelta, v4, rotationStep s.facing m safeDelta⟩,
   movingFlag v3 m)

/-- Player movement intent from the four key flags (lines 203-208):
`x = right - left`, `z = backward - forward`, normalized when nonzero. -/
noncomputable def playerMoveDir (forward backward left right : Bool) : Vec2 :=
  let raw : Vec2 :=
    ⟨(if right then (1 : ℝ) else 0) - (if left then (1 : ℝ) else 0),
     (if backward then (1 : ℝ) else 0) - (if forward then (1 : ℝ) else 0)⟩
  if 0 < raw.length then raw.normalize else raw

/- ### Basic vector lemmas -/

lemma Vec2.length_mk (a b : ℝ) : (Vec2.mk a b).length = Real.sqrt (a ^ 2 + b ^ 2) := rfl

lemma Vec2.length_nonneg (v : Vec2) : 0 ≤ v.length := Real.sqrt_nonneg _

lemma Vec2.zero_length : Vec2.zero.length = 0 := by
  simp [Vec2.zero, Vec2.length_mk]

lemma Vec2.sq_length (v : Vec2) : v.length ^ 2 = v.x ^ 2 + v.z ^ 2 :=
  Real.sq_sqrt (by positivity)

lemma Vec2.normalize_length (v : Vec2) (h : v.length ≠ 0) :
    (v.normalize).length = 1 := by
  have hq : v.length ^ 2 = v.x ^ 2 + v.z ^ 2 := v.sq_length
  rw [Vec2.normalize, if_neg h, Vec2.length_mk]
  have hx : (v.x / v.length) ^ 2 + (v.z / v.length) ^ 2 = 1 := by
    field_simp
    linarith [hq]
  rw [hx, Real.sqrt_one]

lemma Vec2.scale_length (v : Vec2) (k : ℝ) :
    (v.scale k).length = |k| * v.length := by
  rw [Vec2.scale, Vec2.length_mk, Vec2.length,
    show (v.x * k) ^ 2 + (v.z * k) ^ 2 = k ^ 2 * (v.x ^ 2 + v.z ^ 2) by ring,
    Real.sqrt_mul (sq_nonneg k), Real.sqrt_sq_eq_abs]

lemma maxSpeed_pos (p : Bool) : 0 < maxSpeed p := by
  cases p <;> norm_num [maxSpeed, speed]

lemma capStep_length_le (p : Bool) (v : Vec2) :
    (capStep p v).length ≤ maxSpeed p := by
  rw [capStep]
  split
  · rename_i h
    have hne : v.length ≠ 0 := by
      have := maxSpeed_pos p
      intro h0
      rw [h0] at h
      linarith
    rw [Vec2.scale_length, Vec2.normalize_length v hne,
      abs_of_pos (maxSpeed_pos p)]
    simp
  · rename_i h
    exact le_of_not_lt h

lemma snapStep_length_le (v m : Vec2) : (snapStep v m).length ≤ v.length := by
  rw [snapStep]
  split
  · split
    · rw [Vec2.zero_length]
      exact v.length_nonneg
    · exact le_refl _
  · exact le_refl _

/- ### Claim theorems -/

/-- C1. For every agent (player- or AI-controlled), every prior state, every
movement intent and every frame time, the velocity magnitude at the end of
the per-frame physics update is at most the agent's maximum speed (4.0 for
player-controlled, 2.5 for AI-controlled). -/
theorem velocity_magnitude_le_maxSpeed (p : Bool) (worldSize : ℝ)
    (s : AgentState) (m : Vec2) (delta : ℝ) :
    ((physicsStep p worldSize s m delta).1).vel.length ≤ maxSpeed p := by
  have h1 : ((physicsStep p worldSize s m delta).1).vel =
      snapStep (capStep p (frictionStep (accelStep s.vel m (min delta 0.1))
        (min delta 0.1))) m := rfl
  rw [h1]
  exact le_trans (snapStep_length_le _ _) (capStep_length_le _ _)

lemma clamp_mem (value lo hi : ℝ) (h : lo ≤ hi) :
    lo ≤ clamp value lo hi ∧ clamp value lo hi ≤ hi := by
  constructor
  · exact le_max_left lo _
  · exact max_le h (min_le_left hi value)

lemma positionStep_bounds (worldSize : ℝ) (pos vel : Vec2) (sd : ℝ)
    (h : 1 ≤ worldSize) :
    (-(worldSize / 2 - 0.5) ≤ (positionStep worldSize pos vel sd).x ∧
      (positionStep worldSize pos vel sd).x ≤ worldSize / 2 - 0.5) ∧
    (-(worldSize / 2 - 0.5) ≤ (positionStep worldSize pos vel sd).z ∧
      (positionStep worldSize pos vel sd).z ≤ worldSize / 2 - 0.5) := by
  have hlh : -(worldSize / 2 - 0.5) ≤ worldSize / 2 - 0.5 := by linarith
  exact ⟨clamp_mem _ _ _ hlh, clamp_mem _ _ _ hlh⟩

/-- C2. For every agent and every frame (any prior state, movement intent
and frame time), the position produced by the per-frame update satisfies
`-bound ≤ x ≤ bound` and `-bound ≤ z ≤ bound` with
`bound = worldSize / 2 - 0.5` (stated for any world at least 1 unit wide,
so that the playable floor is nonempty; the engine is instantiated with
`worldSize = 10`). -/
theorem position_within_bounds (p : Bool) (worldSize : ℝ) (s : AgentState)
    (m : Vec2) (delta : ℝ) (hws : 1 ≤ worldSize) :
    (-(worldSize / 2 - 0.5) ≤ ((physicsStep p worldSize s m delta).1).pos.x ∧
      ((physicsStep p worldSize s m delta).1).pos.x ≤ worldSize / 2 - 0.5) ∧
    (-(worldSize / 2 - 0.5) ≤ ((physicsStep p worldSize s m delta).1).pos.z ∧
      ((physicsStep p worldSize s m delta).1).pos.z ≤ worldSize / 2 - 0.5) := by
  have h : ((physicsStep p worldSize s m delta).1).pos =
      positionStep worldSize s.pos
        (snapStep (capStep p (frictionStep (accelStep s.vel m (min delta 0.1))
          (min delta 0.1))) m) (min delta 0.1) := rfl
  rw [h]
  exact positionStep_bounds _ _ _ _ hws

/-- Witness for C2 at the engine's default world size 10, the all-zero
state, zero intent and `delta = 0`. -/
theorem position_within_bounds_witness :
    (1 : ℝ) ≤ 10 ∧
    ((-((10 : ℝ) / 2 - 0.5) ≤
        ((physicsStep true 10 ⟨⟨0, 0⟩, ⟨0, 0⟩, 0⟩ Vec2.zero 0).1).pos.x ∧
      ((physicsStep true 10 ⟨⟨0, 0⟩, ⟨0, 0⟩, 0⟩ Vec2.zero 0).1).pos.x ≤
        (10 : ℝ) / 2 - 0.5) ∧
    (-((10 : ℝ) / 2 - 0.5) ≤
        ((physicsStep true 10 ⟨⟨0, 0⟩, ⟨0, 0⟩, 0⟩ Vec2.zero 0).1).pos.z ∧
      ((physicsStep true 10 ⟨⟨0, 0⟩, ⟨0, 0⟩, 0⟩ Vec2.zero 0).1).pos.z ≤
        (10 : ℝ) / 2 - 0.5)) :=
  ⟨by norm_num,
   position_within_bounds true 10 ⟨⟨0, 0⟩, ⟨0, 0⟩, 0⟩ Vec2.zero 0 (by norm_num)⟩

/-- C10. A frame whose movement intent is the zero vector leaves the
agent's facing angle unchanged: the damped rotation toward
`atan2(m.x, m.z)` sits inside the nonzero-intent branch, so a stopped
agent keeps its last facing instead of turning toward angle 0. -/
theorem facing_unchanged_on_zero_intent (p : Bool) (worldSize : ℝ)
    (s : AgentState) (delta : ℝ) :
    ((physicsStep p worldSize s Vec2.zero delta).1).facing = s.facing := by
  have h : ((physicsStep p worldSize s Vec2.zero delta).1).facing =
      rotationStep s.facing Vec2.zero (min delta 0.1) := rfl
  rw [h, rotationStep, if_neg]
  rw [Vec2.zero_length]
  exact lt_irrefl 0

/-- Counterexample to C4 as stated: with zero prior velocity, nonzero
movement intent `m = (1, 0)` and `delta = 0`, the update reports
`isMoving = true` although the velocity magnitude after the stop-snap step
is `0 < 0.05` — so `isMoving` is not equivalent to `|v| ≥ 0.05`, and it
depends on `m` beyond `v`. -/
theorem movingFlag_counterexample :
    (physicsStep true 10 ⟨⟨0, 0⟩, ⟨0, 0⟩, 0⟩ ⟨1, 0⟩ 0).2 = true ∧
    ((physicsStep true 10 ⟨⟨0, 0⟩, ⟨0, 0⟩, 0⟩ ⟨1, 0⟩ 0).1).vel.length < 0.05 := by
  have hsd : min (0 : ℝ) 0.1 = 0 := by norm_num
  have hm : (Vec2.mk (1 : ℝ) 0).length = 1 := by
    rw [Vec2.length_mk]; norm_num
  have hmpos : (0 : ℝ) < (Vec2.mk (1 : ℝ) 0).length := by rw [hm]; norm_num
  have hv1 : accelStep ⟨0, 0⟩ ⟨1, 0⟩ (min 0 0.1) = Vec2.mk 0 0 := by
    rw [accelStep, if_pos hmpos, hsd]
    simp
  have hv2 : frictionStep (Vec2.mk 0 0) (min 0 0.1) = Vec2.mk 0 0 := by
    rw [frictionStep, hsd]
    simp
  have hv3 : capStep true (Vec2.mk 0 0) = Vec2.mk 0 0 := by
    rw [capStep, if_neg]
    rw [Vec2.length_mk]
    norm_num [maxSpeed, speed]
  have hlen0 : (Vec2.mk (0 : ℝ) 0).length = 0 := by
    rw [Vec2.length_mk]; norm_num
  have hflag : (physicsStep true 10 ⟨⟨0, 0⟩, ⟨0, 0⟩, 0⟩ ⟨1, 0⟩ 0).2 =
      movingFlag (capStep true (frictionStep (accelStep ⟨0, 0⟩ ⟨1, 0⟩ (min 0 0.1))
        (min 0 0.1))) ⟨1, 0⟩ := rfl
  have hvel : ((physicsStep true 10 ⟨⟨0, 0⟩, ⟨0, 0⟩, 0⟩ ⟨1, 0⟩ 0).1).vel =
      snapStep (capStep true (frictionStep (accelStep ⟨0, 0⟩ ⟨1, 0⟩ (min 0 0.1))
        (min 0 0.1))) ⟨1, 0⟩ := rfl
  constructor
  · rw [hflag, hv1, hv2, hv3, movingFlag, if_pos (by rw [hlen0]; norm_num),
      if_neg (by rw [hm]; norm_num), if_pos hmpos]
  · rw [hvel, hv1, hv2, hv3, snapStep, if_pos (by rw [hlen0]; norm_num),
      if_neg (by rw [hm]; norm_num), hlen0]
    norm_num

/-- C4 amended: the reported `isMoving` flag is true iff the velocity
magnitude after the stop-snap step is at least 0.05 OR the movement intent
is nonzero (a nonzero intent forces `isMoving = true` even while the
velocity is still below the threshold). -/
theorem movingFlag_iff (p : Bool) (worldSize : ℝ) (s : AgentState)
    (m : Vec2) (delta : ℝ) :
    (physicsStep p worldSize s m delta).2 = true ↔
      (0.05 ≤ ((physicsStep p worldSize s m delta).1).vel.length ∨
        m.length ≠ 0) := by
  set v3 := capStep p (frictionStep (accelStep s.vel m (min delta 0.1))
    (min delta 0.1)) with hv3
  have h2 : (physicsStep p worldSize s m delta).2 = movingFlag v3 m := rfl
  have h1 : ((physicsStep p worldSize s m delta).1).vel = snapStep v3 m := rfl
  rw [h1, h2, movingFlag, snapStep]
  by_cases hlt : v3.length < 0.05
  · rw [if_pos hlt, if_pos hlt]
    by_cases hm : m.length = 0
    · rw [if_pos hm, if_pos hm]
      norm_num [Vec2.zero_length, hm]
    · rw [if_neg hm, if_neg hm]
      have hpos : 0 < m.length := lt_of_le_of_ne m.length_nonneg (Ne.symm hm)
      rw [if_pos hpos]
      simp [hm]
  · rw [if_neg hlt, if_neg hlt]
    have hge : 0.05 ≤ v3.length := le_of_not_lt hlt
    simp [hge]

/- ### Angle normalization -/

lemma normalizeAngle_mem (a : ℝ) :
    -Real.pi ≤ normalizeAngle a ∧ normalizeAngle a ≤ Real.pi := by
  have hπ : 0 < Real.pi := Real.pi_pos
  have h2π : 0 < 2 * Real.pi := by linarith
  rw [normalizeAngle]
  split
  · rename_i h
    set q := (a - Real.pi) / (2 * Real.pi) with hq
    have hcl : q ≤ (⌈q⌉ : ℝ) := Int.le_ceil q
    have hcu : (⌈q⌉ : ℝ) < q + 1 := Int.ceil_lt_add_one q
    have hc1 : 2 * Real.pi * q ≤ 2 * Real.pi * (⌈q⌉ : ℝ) :=
      mul_le_mul_of_nonneg_left hcl (by linarith)
    have hc2 : 2 * Real.pi * (⌈q⌉ : ℝ) < 2 * Real.pi * (q + 1) :=
      mul_lt_mul_of_pos_left hcu h2π
    have hexp : 2 * Real.pi * (q + 1) = 2 * Real.pi * q + 2 * Real.pi := by ring
    have hqv : 2 * Real.pi * q = a - Real.pi := by
      rw [hq, mul_div_cancel₀ _ (ne_of_gt h2π)]
    constructor
    · linarith
    · linarith
  · split
    · rename_i h1 h2
      set q := (-Real.pi - a) / (2 * Real.pi) with hq
      have hcl : q ≤ (⌈q⌉ : ℝ) := Int.le_ceil q
      have hcu : (⌈q⌉ : ℝ) < q + 1 := Int.ceil_lt_add_one q
      have hc1 : 2 * Real.pi * q ≤ 2 * Real.pi * (⌈q⌉ : ℝ) :=
        mul_le_mul_of_nonneg_left hcl (by linarith)
      have hc2 : 2 * Real.pi * (⌈q⌉ : ℝ) < 2 * Real.pi * (q + 1) :=
        mul_lt_mul_of_pos_left hcu h2π
      have hexp : 2 * Real.pi * (q + 1) = 2 * Real.pi * q + 2 * Real.pi := by ring
      have hqv : 2 * Real.pi * q = -Real.pi - a := by
        rw [hq, mul_div_cancel₀ _ (ne_of_gt h2π)]
      constructor
      · linarith
      · linarith
    · rename_i h1 h2
      exact ⟨le_of_not_lt h2, le_of_not_lt h1⟩

lemma normalizeAngle_sub_int (a : ℝ) :
    ∃ k : ℤ, normalizeAngle a = a + 2 * Real.pi * (k : ℝ) := by
  rw [normalizeAngle]
  split
  · exact ⟨-⌈(a - Real.pi) / (2 * Real.pi)⌉, by push_cast; ring⟩
  · split
    · exact ⟨⌈(-Real.pi - a) / (2 * Real.pi)⌉, by ring⟩
    · exact ⟨0, by norm_num⟩

/-- Counterexample to C5 as stated: with facing angle `π` and movement
intent `m = (0, 1)` (target angle `atan2(0, 1) = 0`), the raw angular
difference is exactly `-π`; neither while-loop fires, so the normalized
difference is `-π`, which lies outside the claimed half-open interval
`(-π, π]`. -/
theorem normalizeAngle_boundary_counterexample :
    normalizeAngle (atan2 0 1 - Real.pi) = -Real.pi ∧
    ¬(-Real.pi < normalizeAngle (atan2 0 1 - Real.pi)) := by
  have h1 : atan2 0 1 = 0 := by
    rw [atan2]
    simp [Complex.arg_one]
  have h2 : normalizeAngle (-Real.pi) = -Real.pi := by
    rw [normalizeAngle, if_neg (by linarith [Real.pi_pos]), if_neg (lt_irrefl _)]
  constructor
  · rw [h1, zero_sub, h2]
  · rw [h1, zero_sub, h2]
    exact lt_irrefl _

/-- C5 amended: for every facing angle and nonzero movement intent, the
signed angular difference to `atan2(m.x, m.z)` is normalized into the
CLOSED interval `[-π, π]` (a difference congruent to `-π` is left at
`-π`, so the interval is closed on both ends, not `(-π, π]`), it differs
from the raw difference by an integer multiple of `2π`, and with `dt ≥ 0`
the facing-angle change applied in one frame, `angleDiff * dt_safe * 10`
with `dt_safe = min dt 0.1`, never exceeds `π` in absolute value. -/
theorem facing_turn_bounded (p : Bool) (worldSize : ℝ) (s : AgentState)
    (m : Vec2) (delta : ℝ) (hm : m.length ≠ 0) (hdt : 0 ≤ delta) :
    (-Real.pi ≤ normalizeAngle (atan2 m.x m.z - s.facing) ∧
      normalizeAngle (atan2 m.x m.z - s.facing) ≤ Real.pi) ∧
    (∃ k : ℤ, normalizeAngle (atan2 m.x m.z - s.facing) =
      (atan2 m.x m.z - s.facing) + 2 * Real.pi * (k : ℝ)) ∧
    |((physicsStep p worldSize s m delta).1).facing - s.facing| ≤ Real.pi := by
  refine ⟨normalizeAngle_mem _, normalizeAngle_sub_int _, ?_⟩
  have hpos : 0 < m.length := lt_of_le_of_ne m.length_nonneg (Ne.symm hm)
  have hfac : ((physicsStep p worldSize s m delta).1).facing =
      rotationStep s.facing m (min delta 0.1) := rfl
  rw [hfac, rotationStep, if_pos hpos]
  have hsd0 : (0 : ℝ) ≤ min delta 0.1 := le_min hdt (by norm_num)
  have hsd1 : min delta 0.1 ≤ 0.1 := min_le_right _ _
  have hrange := normalizeAngle_mem (atan2 m.x m.z - s.facing)
  set d := normalizeAngle (atan2 m.x m.z - s.facing) with hd
  have habs : |d| ≤ Real.pi := abs_le.2 ⟨hrange.1, hrange.2⟩
  have hre : s.facing + d * (min delta 0.1) * 10 - s.facing =
      d * (min delta 0.1 * 10) := by ring
  rw [hre, abs_mul]
  have h10 : |min delta 0.1 * 10| ≤ 1 := by
    rw [abs_of_nonneg (by positivity)]
    linarith
  calc |d| * |min delta 0.1 * 10| ≤ Real.pi * 1 :=
        mul_le_mul habs h10 (abs_nonneg _) Real.pi_pos.le
    _ = Real.pi := mul_one _

/-- Witness for C5 (amended) at facing 0, intent `(0, 1)`, `delta = 0`. -/
theorem facing_turn_bounded_witness :
    (Vec2.mk (0 : ℝ) 1).length ≠ 0 ∧ (0 : ℝ) ≤ 0 ∧
    ((-Real.pi ≤ normalizeAngle (atan2 (Vec2.mk (0 : ℝ) 1).x (Vec2.mk (0 : ℝ) 1).z - (AgentState.mk ⟨0, 0⟩ ⟨0, 0⟩ 0).facing) ∧
      normalizeAngle (atan2 (Vec2.mk (0 : ℝ) 1).x (Vec2.mk (0 : ℝ) 1).z - (AgentState.mk ⟨0, 0⟩ ⟨0, 0⟩ 0).facing) ≤ Real.pi) ∧
    (∃ k : ℤ, normalizeAngle (atan2 (Vec2.mk (0 : ℝ) 1).x (Vec2.mk (0 : ℝ) 1).z - (AgentState.mk ⟨0, 0⟩ ⟨0, 0⟩ 0).facing) =
      (atan2 (Vec2.mk (0 : ℝ) 1).x (Vec2.mk (0 : ℝ) 1).z - (AgentState.mk ⟨0, 0⟩ ⟨0, 0⟩ 0).facing) + 2 * Real.pi * (k : ℝ)) ∧
    |((physicsStep true 10 (AgentState.mk ⟨0, 0⟩ ⟨0, 0⟩ 0) (Vec2.mk (0 : ℝ) 1) 0).1).facing - (AgentState.mk ⟨0, 0⟩ ⟨0, 0⟩ 0).facing| ≤ Real.pi) := by
  have hm : (Vec2.mk (0 : ℝ) 1).length ≠ 0 := by
    rw [Vec2.length_mk]
    norm_num
  exact ⟨hm, le_refl 0,
    facing_turn_bounded true 10 (AgentState.mk ⟨0, 0⟩ ⟨0, 0⟩ 0) (Vec2.mk (0 : ℝ) 1) 0 hm (le_refl 0)⟩

/- ### AI behavior state machine -/

/-- The two modes of the wandering state machine (line 171). -/
inductive AIMode
  | idle
  | moving
deriving DecidableEq

/-- `aiState.current` (lines 170-174): mode, committed target (ground
plane; its `y` component is set to 0 at every write), and the next
decision time. -/
structure LeashState where
  mode : AIMode
  target : Vec2
  nextDecisionTime : ℝ

/-- `const radius = 4` — the leash radius (line 227). -/
def leashRadius : ℝ := 4

/-- One frame of the AI state machine (lines 219-253). `t` is the clock's
elapsed time, `currentPos` the agent's position, `center` the reference
position read this frame (`followTargetRef.current`, or the origin when
absent), and `r1 r2 r3 ∈ [0, 1)` stand for the `Math.random()` draws:
`r1` the angle draw and `r2` the distance draw of the idle branch, `r3`
the wait draw of the arrival branch. Returns the updated `aiState` and
the movement intent `moveDir` emitted for this frame. -/
noncomputable def aiStep (t : ℝ) (currentPos center : Vec2) (r1 r2 r3 : ℝ)
    (st : LeashState) : LeashState × Vec2 :=
  match st.mode with
  | .idle =>
    if st.nextDecisionTime < t then
      let angle := r1 * Real.pi * 2
      let dist := r2 * leashRadius
      (⟨.moving,
        ⟨center.x + Real.cos angle * dist, center.z + Real.sin angle * dist⟩,
        st.nextDecisionTime⟩, Vec2.zero)
    else (st, Vec2.zero)
  | .moving =>
    let distToTarget := Vec2.dist currentPos st.target
    if distToTarget < 0.5 then
      (⟨.idle, st.target, t + 2 + r3 * 3⟩, Vec2.zero)
    else
      (st, Vec2.normalize (Vec2.sub st.target currentPos))

lemma Vec2.dist_eq (a b : Vec2) : Vec2.dist a b = (Vec2.sub a b).length := rfl

lemma Vec2.sub_length_comm (a b : Vec2) :
    (Vec2.sub a b).length = (Vec2.sub b a).length := by
  rw [Vec2.sub, Vec2.sub, Vec2.length_mk, Vec2.length_mk]
  congr 1
  ring

lemma cos_sin_length (θ D : ℝ) :
    (Vec2.mk (Real.cos θ * D) (Real.sin θ * D)).length = |D| := by
  rw [Vec2.length_mk]
  have hs := Real.sin_sq_add_cos_sq θ
  have h : (Real.cos θ * D) ^ 2 + (Real.sin θ * D) ^ 2 = D ^ 2 := by
    linear_combination D ^ 2 * hs
  rw [h, Real.sqrt_sq_eq_abs]

/-- C6. At the moment the Idle-to-Moving transition chooses a target
(current time past `nextDecisionTime`, with the two `Math.random()` draws
in `[0, 1)`), the chosen target lies within `leashRadius = 4` of the
reference position as read at that moment; and while the state is
`Moving` the target field is never rewritten, whatever the reference
position has moved to. -/
theorem leash_target_commit (t : ℝ) (currentPos center : Vec2)
    (r1 r2 r3 : ℝ) (st : LeashState) :
    (st.mode = .idle → st.nextDecisionTime < t → 0 ≤ r2 → r2 < 1 →
      Vec2.dist (aiStep t currentPos center r1 r2 r3 st).1.target center ≤
        leashRadius) ∧
    (st.mode = .moving →
      (aiStep t currentPos center r1 r2 r3 st).1.target = st.target) := by
  obtain ⟨mo, tgt, ndt⟩ := st
  constructor
  · intro hidle htime hr0 hr1
    simp only at hidle
    subst hidle
    simp only [aiStep] at htime ⊢
    rw [if_pos htime]
    have hsub : Vec2.sub
        ⟨center.x + Real.cos (r1 * Real.pi * 2) * (r2 * leashRadius),
         center.z + Real.sin (r1 * Real.pi * 2) * (r2 * leashRadius)⟩ center =
        ⟨Real.cos (r1 * Real.pi * 2) * (r2 * leashRadius),
         Real.sin (r1 * Real.pi * 2) * (r2 * leashRadius)⟩ := by
      rw [Vec2.sub]
      congr 1 <;> ring
    rw [Vec2.dist_eq, hsub, cos_sin_length,
      abs_of_nonneg (mul_nonneg hr0 (by norm_num [leashRadius]))]
    have : r2 * leashRadius ≤ 1 * leashRadius :=
      mul_le_mul_of_nonneg_right (le_of_lt hr1) (by norm_num [leashRadius])
    linarith [this]
  · intro hmoving
    simp only at hmoving
    subst hmoving
    simp only [aiStep]
    split
    · rfl
    · rfl

/-- Witness for C6: an idle agent whose timer expired at draws
`r1 = r2 = 0` picks a target at distance 0 from the reference position,
and a moving agent's target `(3, 3)` survives the step even though the
reference position has moved to `(5, 5)`. -/
theorem leash_target_commit_witness :
    Vec2.dist (aiStep 1 ⟨0, 0⟩ ⟨0, 0⟩ 0 0 0 ⟨.idle, ⟨0, 0⟩, 0⟩).1.target ⟨0, 0⟩ ≤
      leashRadius ∧
    (aiStep 1 ⟨0, 0⟩ ⟨5, 5⟩ 0 0 0 ⟨.moving, ⟨3, 3⟩, 0⟩).1.target = ⟨3, 3⟩ :=
  ⟨(leash_target_commit 1 ⟨0, 0⟩ ⟨0, 0⟩ 0 0 0 ⟨.idle, ⟨0, 0⟩, 0⟩).1 rfl
      (by norm_num) (le_refl 0) (by norm_num),
   (leash_target_commit 1 ⟨0, 0⟩ ⟨5, 5⟩ 0 0 0 ⟨.moving, ⟨3, 3⟩, 0⟩).2 rfl⟩

/-- C7. A moving AI agent strictly within 0.5 of its target transitions to
Idle, emits the zero movement intent, and schedules
`nextDecisionTime = t + 2 + r3 * 3` — strictly later than the current time
for every draw `r3 ≥ 0`; at distance 0.5 or more it emits the unit vector
from the current position toward the target. -/
theorem arrival_transition (t : ℝ) (currentPos center : Vec2)
    (r1 r2 r3 : ℝ) (st : LeashState)
    (hmode : st.mode = .moving) (hr3 : 0 ≤ r3) :
    (Vec2.dist currentPos st.target < 0.5 →
      (aiStep t currentPos center r1 r2 r3 st).1.mode = .idle ∧
      (aiStep t currentPos center r1 r2 r3 st).2 = Vec2.zero ∧
      (aiStep t currentPos center r1 r2 r3 st).1.nextDecisionTime =
        t + 2 + r3 * 3 ∧
      t < (aiStep t currentPos center r1 r2 r3 st).1.nextDecisionTime) ∧
    (0.5 ≤ Vec2.dist currentPos st.target →
      (aiStep t currentPos center r1 r2 r3 st).2 =
        Vec2.normalize (Vec2.sub st.target currentPos) ∧
      ((aiStep t currentPos center r1 r2 r3 st).2).length = 1) := by
  obtain ⟨mo, tgt, ndt⟩ := st
  simp only at hmode
  subst hmode
  constructor
  · intro harr
    simp only [aiStep] at harr ⊢
    rw [if_pos harr]
    refine ⟨rfl, rfl, rfl, ?_⟩
    show t < t + 2 + r3 * 3
    linarith
  · intro hfar
    simp only [aiStep] at hfar ⊢
    rw [if_neg (not_lt.2 hfar)]
    refine ⟨rfl, ?_⟩
    have hne : (Vec2.sub tgt currentPos).length ≠ 0 := by
      rw [Vec2.sub_length_comm]
      have : (0.5 : ℝ) ≤ (Vec2.sub currentPos tgt).length := hfar
      intro h0
      rw [h0] at this
      linarith
    exact Vec2.normalize_length _ hne

/-- Witness for C7: a moving agent sitting exactly on its target arrives
(distance 0 < 0.5), switches to idle with `nextDecisionTime = 2 > 0`,
and a moving agent one unit short of its target emits a unit intent. -/
theorem arrival_transition_witness :
    (aiStep 0 ⟨0, 0⟩ ⟨0, 0⟩ 0 0 0 ⟨.moving, ⟨0, 0⟩, 0⟩).1.mode = AIMode.idle ∧
    (0 : ℝ) < (aiStep 0 ⟨0, 0⟩ ⟨0, 0⟩ 0 0 0 ⟨.moving, ⟨0, 0⟩, 0⟩).1.nextDecisionTime ∧
    ((aiStep 0 ⟨1, 0⟩ ⟨0, 0⟩ 0 0 0 ⟨.moving, ⟨0, 0⟩, 0⟩).2).length = 1 := by
  have h1 := arrival_transition 0 ⟨0, 0⟩ ⟨0, 0⟩ 0 0 0 ⟨.moving, ⟨0, 0⟩, 0⟩ rfl (le_refl 0)
  have h2 := arrival_transition 0 ⟨1, 0⟩ ⟨0, 0⟩ 0 0 0 ⟨.moving, ⟨0, 0⟩, 0⟩ rfl (le_refl 0)
  have harr : Vec2.dist (⟨0, 0⟩ : Vec2) (LeashState.mk .moving ⟨0, 0⟩ 0).target < 0.5 := by
    show (Vec2.sub ⟨0, 0⟩ ⟨0, 0⟩).length < 0.5
    simp [Vec2.sub, Vec2.length_mk]
    norm_num
  have hfar : (0.5 : ℝ) ≤ Vec2.dist (⟨1, 0⟩ : Vec2) (LeashState.mk .moving ⟨0, 0⟩ 0).target := by
    show (0.5 : ℝ) ≤ (Vec2.sub ⟨1, 0⟩ ⟨0, 0⟩).length
    simp only [Vec2.sub, Vec2.length_mk]
    rw [show ((1 : ℝ) - 0) ^ 2 + ((0 : ℝ) - 0) ^ 2 = 1 by norm_num, Real.sqrt_one]
    norm_num
  exact ⟨(h1.1 harr).1, by rw [(h1.1 harr).2.2.1]; norm_num, (h2.2 hfar).2⟩

/- ### Idle fidget schedule -/

/-- JavaScript `a % b` for the engine's operands (`t ≥ 0`, `b = 8 > 0`),
where it agrees with the floor-based remainder. -/
noncomputable def fmod (a b : ℝ) : ℝ := a - b * (⌊a / b⌋ : ℝ)

/-- The three branches of the idle fidget `if`-chain (lines 371-387):
`fidgetPhase > 1 && fidgetPhase < 3` drives the look-around pose,
`fidgetPhase > 5 && fidgetPhase < 6` the head tilt, and everything else
the default idle sway. -/
inductive FidgetBranch
  | lookAround
  | headTilt
  | idleSway
deriving DecidableEq

/-- Branch selected by `const fidgetPhase = t % 8` (lines 371-387). -/
noncomputable def fidgetBranch (t : ℝ) : FidgetBranch :=
  let fidgetPhase := fmod t 8
  if 1 < fidgetPhase ∧ fidgetPhase < 3 then .lookAround
  else if 5 < fidgetPhase ∧ fidgetPhase < 6 then .headTilt
  else .idleSway

/-- C9. The non-Working idle fidget is a deterministic function of the
elapsed time keyed on `t mod 8`: at phase 1.5 the pose is in the 2-second
look-around branch, at phase 5.5 in the 1-second head-tilt branch, and at
phase 7 in the default idle-sway branch. -/
theorem fidget_schedule (t : ℝ) :
    (fmod t 8 = 1.5 → fidgetBranch t = .lookAround) ∧
    (fmod t 8 = 5.5 → fidgetBranch t = .headTilt) ∧
    (fmod t 8 = 7 → fidgetBranch t = .idleSway) := by
  refine ⟨?_, ?_, ?_⟩ <;> intro h <;> simp only [fidgetBranch] <;> rw [h]
  · rw [if_pos (by norm_num)]
  · rw [if_neg (by norm_num), if_pos (by norm_num)]
  · rw [if_neg (by norm_num), if_neg (by norm_num)]

/-- Witness for C9 at `t = 1.5`: the phase is 1.5 and the branch is the
look-around pose. -/
theorem fidget_schedule_witness :
    fmod 1.5 8 = 1.5 ∧ fidgetBranch 1.5 = FidgetBranch.lookAround := by
  have hfl : ⌊(1.5 : ℝ) / 8⌋ = 0 := by
    rw [Int.floor_eq_zero_iff, Set.mem_Ico]
    norm_num
  have hm : fmod 1.5 8 = 1.5 := by
    rw [fmod, hfl]
    norm_num
  exact ⟨hm, (fidget_schedule 1.5).1 hm⟩

/- ### Sustained zero-intent coasting -/

lemma accelStep_zero (v : Vec2) (sd : ℝ) : accelStep v Vec2.zero sd = v := by
  rw [accelStep, if_neg]
  rw [Vec2.zero_length]
  exact lt_irrefl 0

lemma frictionStep_eq_scale (v : Vec2) (sd : ℝ) :
    frictionStep v sd = v.scale (Real.exp (-friction * sd)) := rfl

lemma snapStep_of_intent (v m : Vec2) (hm : m.length ≠ 0) :
    snapStep v m = v := by
  rw [snapStep, if_neg hm, ite_self]

/-- A sequence of physics frames, all with zero movement intent, fed the
given list of raw frame times in order. -/
noncomputable def coastRun (p : Bool) (worldSize : ℝ) (s : AgentState) :
    List ℝ → AgentState
  | [] => s
  | d :: ds => coastRun p worldSize ((physicsStep p worldSize s Vec2.zero d).1) ds

/-- Total clamped frame time of a list of raw frame times. -/
noncomputable def clampedTime (dts : List ℝ) : ℝ :=
  (dts.map (fun d => min d 0.1)).sum

lemma clampedTime_nil : clampedTime [] = 0 := by simp [clampedTime]

lemma clampedTime_cons (d : ℝ) (ds : List ℝ) :
    clampedTime (d :: ds) = min d 0.1 + clampedTime ds := by
  simp [clampedTime]

lemma coast_step_bounds (p : Bool) (ws : ℝ) (s : AgentState) (d : ℝ)
    (hd : 0 ≤ d) (hv : s.vel.length ≤ maxSpeed p) :
    ((physicsStep p ws s Vec2.zero d).1).vel.length ≤
      s.vel.length * Real.exp (-(10 : ℝ) * min d 0.1) ∧
    ((physicsStep p ws s Vec2.zero d).1).vel.length ≤ maxSpeed p ∧
    (s.vel.length * Real.exp (-(10 : ℝ) * min d 0.1) < 0.05 →
      ((physicsStep p ws s Vec2.zero d).1).vel = Vec2.zero) := by
  have hsd0 : (0 : ℝ) ≤ min d 0.1 := le_min hd (by norm_num)
  have hfr10 : -friction * min d 0.1 = -(10 : ℝ) * min d 0.1 := by
    norm_num [friction]
  have hexple : Real.exp (-(10 : ℝ) * min d 0.1) ≤ 1 :=
    Real.exp_le_one_iff.2 (by nlinarith)
  have hv2 : (frictionStep s.vel (min d 0.1)).length =
      s.vel.length * Real.exp (-(10 : ℝ) * min d 0.1) := by
    rw [frictionStep_eq_scale, Vec2.scale_length, hfr10,
      abs_of_pos (Real.exp_pos _)]
    ring
  have hv2le : (frictionStep s.vel (min d 0.1)).length ≤ maxSpeed p := by
    rw [hv2]
    calc s.vel.length * Real.exp (-(10 : ℝ) * min d 0.1) ≤ s.vel.length * 1 :=
          mul_le_mul_of_nonneg_left hexple (Vec2.length_nonneg _)
      _ = s.vel.length := mul_one _
      _ ≤ maxSpeed p := hv
  have hcap : capStep p (frictionStep s.vel (min d 0.1)) =
      frictionStep s.vel (min d 0.1) := by
    rw [capStep, if_neg (not_lt.2 hv2le)]
  have hvel : ((physicsStep p ws s Vec2.zero d).1).vel =
      snapStep (capStep p (frictionStep (accelStep s.vel Vec2.zero (min d 0.1))
        (min d 0.1))) Vec2.zero := rfl
  rw [hvel, accelStep_zero, hcap]
  by_cases hsnap : (frictionStep s.vel (min d 0.1)).length < 0.05
  · rw [snapStep, if_pos hsnap, if_pos Vec2.zero_length]
    refine ⟨?_, ?_, fun _ => rfl⟩
    · rw [Vec2.zero_length]
      exact mul_nonneg (Vec2.length_nonneg _) (Real.exp_pos _).le
    · rw [Vec2.zero_length]
      exact (maxSpeed_pos p).le
  · rw [snapStep, if_neg hsnap]
    refine ⟨le_of_eq hv2, hv2le, ?_⟩
    intro hlt
    rw [← hv2] at hlt
    exact absurd hlt hsnap

lemma coastRun_vel_zero (p : Bool) (ws : ℝ) :
    ∀ (dts : List ℝ) (s : AgentState), (∀ d ∈ dts, 0 ≤ d) →
      s.vel.length ≤ maxSpeed p →
      s.vel.length * Real.exp (-(10 : ℝ) * clampedTime dts) < 0.05 →
      dts ≠ [] → (coastRun p ws s dts).vel = Vec2.zero := by
  intro dts
  induction dts with
  | nil =>
    intro s _ _ _ hne
    exact absurd rfl hne
  | cons d ds ih =>
    intro s hdts hv hlt _
    have hd : 0 ≤ d := hdts d (List.mem_cons_self d ds)
    have hds : ∀ x ∈ ds, 0 ≤ x := fun x hx => hdts x (List.mem_cons_of_mem d hx)
    obtain ⟨h1, h2, h3⟩ := coast_step_bounds p ws s d hd hv
    rw [coastRun]
    by_cases hnil : ds = []
    · subst hnil
      rw [coastRun]
      apply h3
      rw [clampedTime_cons, clampedTime_nil, add_zero] at hlt
      exact hlt
    · apply ih ((physicsStep p ws s Vec2.zero d).1) hds h2 ?_ hnil
      have hcomb : ((physicsStep p ws s Vec2.zero d).1).vel.length *
          Real.exp (-(10 : ℝ) * clampedTime ds) ≤
          (s.vel.length * Real.exp (-(10 : ℝ) * min d 0.1)) *
            Real.exp (-(10 : ℝ) * clampedTime ds) :=
        mul_le_mul_of_nonneg_right h1 (Real.exp_pos _).le
      have hsplit : (s.vel.length * Real.exp (-(10 : ℝ) * min d 0.1)) *
          Real.exp (-(10 : ℝ) * clampedTime ds) =
          s.vel.length * Real.exp (-(10 : ℝ) * clampedTime (d :: ds)) := by
        rw [clampedTime_cons, mul_assoc, ← Real.exp_add]
        congr 2
        ring
      rw [hsplit] at hcomb
      exact lt_of_le_of_lt hcomb hlt

/-- C8. Starting from any velocity of magnitude at most the agent's speed
cap, feeding zero movement intent on every frame until the total clamped
frame time reaches `5 * (1 / FRICTION) = 0.5` seconds brings the velocity
magnitude within `1e-3` of zero (the stop snap in fact zeroes it exactly,
since `4 * exp(-5) < 0.05`). -/
theorem coast_to_rest (p : Bool) (ws : ℝ) (s : AgentState) (dts : List ℝ)
    (hv : s.vel.length ≤ maxSpeed p) (hd : ∀ d ∈ dts, 0 ≤ d)
    (hT : 0.5 ≤ clampedTime dts) :
    (coastRun p ws s dts).vel.length ≤ 0.001 := by
  have hne : dts ≠ [] := by
    intro h
    subst h
    rw [clampedTime_nil] at hT
    norm_num at hT
  have hms4 : maxSpeed p ≤ 4 := by cases p <;> norm_num [maxSpeed, speed]
  have hexp : Real.exp (-(10 : ℝ) * clampedTime dts) ≤ Real.exp (-(5 : ℝ)) := by
    apply Real.exp_le_exp.2
    linarith
  have he1 : (2.7 : ℝ) < Real.exp 1 := by
    have := Real.exp_one_gt_d9
    linarith
  have h5 : (80 : ℝ) < Real.exp 5 := by
    have hp : Real.exp (5 : ℝ) = Real.exp 1 ^ (5 : ℕ) := by
      rw [← Real.exp_nat_mul]
      norm_num
    have hlt : (2.7 : ℝ) ^ (5 : ℕ) < Real.exp 1 ^ (5 : ℕ) :=
      pow_lt_pow_left₀ he1 (by norm_num) (by norm_num)
    have hc : (80 : ℝ) < (2.7 : ℝ) ^ (5 : ℕ) := by norm_num
    rw [hp]
    linarith
  have hkey : (4 : ℝ) * Real.exp (-(5 : ℝ)) < 0.05 := by
    have hrw : Real.exp (-(5 : ℝ)) * Real.exp 5 = 1 := by
      rw [← Real.exp_add]
      norm_num
    have hmul : Real.exp (-(5 : ℝ)) * 80 < Real.exp (-(5 : ℝ)) * Real.exp 5 :=
      mul_lt_mul_of_pos_left h5 (Real.exp_pos _)
    rw [hrw] at hmul
    linarith
  have hlt : s.vel.length * Real.exp (-(10 : ℝ) * clampedTime dts) < 0.05 := by
    calc s.vel.length * Real.exp (-(10 : ℝ) * clampedTime dts) ≤
          4 * Real.exp (-(5 : ℝ)) :=
          mul_le_mul (le_trans hv hms4) hexp (Real.exp_pos _).le (by norm_num)
      _ < 0.05 := hkey
  rw [coastRun_vel_zero p ws dts s hd hv hlt hne, Vec2.zero_length]
  norm_num

/-- Witness for C8: a player agent at the cap-compatible zero velocity fed
five maximal clamped frames (0.5 s of clamped time) ends at speed ≤ 1e-3. -/
theorem coast_to_rest_witness :
    (0.5 : ℝ) ≤ clampedTime [0.1, 0.1, 0.1, 0.1, 0.1] ∧
    (coastRun true 10 ⟨⟨0, 0⟩, ⟨0, 0⟩, 0⟩ [0.1, 0.1, 0.1, 0.1, 0.1]).vel.length ≤
      0.001 := by
  have hT : (0.5 : ℝ) ≤ clampedTime [0.1, 0.1, 0.1, 0.1, 0.1] := by
    simp [clampedTime]
    norm_num
  refine ⟨hT, coast_to_rest true 10 ⟨⟨0, 0⟩, ⟨0, 0⟩, 0⟩ _ ?_ ?_ hT⟩
  · show (Vec2.mk (0 : ℝ) 0).length ≤ maxSpeed true
    rw [Vec2.length_mk]
    norm_num [maxSpeed, speed]
  · intro x hx
    simp only [List.mem_cons, List.not_mem_nil, or_false] at hx
    rcases hx with h | h | h | h | h <;> rw [h] <;> norm_num

/- ### Constant forward intent at 60 fps -/

/-- The player intent while only the forward key is held. -/
noncomputable def forwardIntent : Vec2 := playerMoveDir true false false false

lemma unitNegZ_length : (Vec2.mk (0 : ℝ) (-1)).length = 1 := by
  rw [Vec2.length_mk, show ((0 : ℝ) ^ 2 + (-1 : ℝ) ^ 2) = 1 by norm_num,
    Real.sqrt_one]

lemma forwardIntent_eq : forwardIntent = ⟨0, -1⟩ := by
  rw [forwardIntent]
  simp only [playerMoveDir]
  norm_num
  intro _
  rw [Vec2.normalize, if_neg (by rw [unitNegZ_length]; norm_num), unitNegZ_length]
  norm_num

/-- The end-to-end scenario of the spec: player-controlled agent in the
default 10-unit world, starting at the origin with zero velocity and
facing 0, fed the constant forward intent at fixed `delta = 1/60`. -/
noncomputable def forwardRun : ℕ → AgentState
  | 0 => ⟨⟨0, 0⟩, ⟨0, 0⟩, 0⟩
  | n + 1 => (physicsStep true 10 (forwardRun n) forwardIntent (1 / 60)).1

lemma e16_le : Real.exp (-(1 : ℝ) / 6) ≤ 6 / 7 := by
  have h1 := Real.add_one_le_exp ((1 : ℝ) / 6)
  have h3 : (7 / 6 : ℝ) ≤ Real.exp ((1 : ℝ) / 6) := by linarith
  have hpos : (0 : ℝ) < Real.exp ((1 : ℝ) / 6) := Real.exp_pos _
  have h2 : Real.exp (-(1 : ℝ) / 6) = (Real.exp ((1 : ℝ) / 6))⁻¹ := by
    rw [← Real.exp_neg]
    norm_num
  have hid : (Real.exp ((1 : ℝ) / 6))⁻¹ * Real.exp ((1 : ℝ) / 6) = 1 :=
    inv_mul_cancel₀ (ne_of_gt hpos)
  have hy : (0 : ℝ) < (Real.exp ((1 : ℝ) / 6))⁻¹ := inv_pos.2 hpos
  have hprod : (Real.exp ((1 : ℝ) / 6))⁻¹ * (7 / 6) ≤
      (Real.exp ((1 : ℝ) / 6))⁻¹ * Real.exp ((1 : ℝ) / 6) :=
    mul_le_mul_of_nonneg_left h3 hy.le
  rw [hid] at hprod
  rw [h2]
  linarith

lemma forward_step (s : AgentState)
    (hx : s.vel.x = 0) (hzl : -(3 / 2 : ℝ) ≤ s.vel.z) (hzu : s.vel.z ≤ 0)
    (hpl : -(9 / 2 : ℝ) ≤ s.pos.z) (hpu : s.pos.z ≤ 0) :
    ((physicsStep true 10 s forwardIntent (1 / 60)).1).vel.x = 0 ∧
    -(3 / 2 : ℝ) ≤ ((physicsStep true 10 s forwardIntent (1 / 60)).1).vel.z ∧
    ((physicsStep true 10 s forwardIntent (1 / 60)).1).vel.z ≤ 0 ∧
    -(9 / 2 : ℝ) ≤ ((physicsStep true 10 s forwardIntent (1 / 60)).1).pos.z ∧
    ((physicsStep true 10 s forwardIntent (1 / 60)).1).pos.z ≤ s.pos.z ∧
    ((physicsStep true 10 s forwardIntent (1 / 60)).1).pos.z ≤ 0 := by
  have hsd : min (1 / 60 : ℝ) 0.1 = 1 / 60 := min_eq_left (by norm_num)
  have hmI : forwardIntent = ⟨0, -1⟩ := forwardIntent_eq
  have hIlen : forwardIntent.length = 1 := by rw [hmI]; exact unitNegZ_length
  have hepos : (0 : ℝ) < Real.exp (-(1 : ℝ) / 6) := Real.exp_pos _
  have hele : Real.exp (-(1 : ℝ) / 6) ≤ 6 / 7 := e16_le
  have hacc : accelStep s.vel forwardIntent (min (1 / 60) 0.1) =
      ⟨0, s.vel.z - 1 / 4⟩ := by
    rw [hsd, hmI, accelStep, if_pos (by rw [unitNegZ_length]; norm_num)]
    congr 1
    · rw [hx]
      norm_num [acceleration]
    · norm_num [acceleration]
      ring
  have harg : -friction * ((1 : ℝ) / 60) = -(1 : ℝ) / 6 := by
    norm_num [friction]
  have hfr : frictionStep (⟨0, s.vel.z - 1 / 4⟩ : Vec2) (min (1 / 60) 0.1) =
      ⟨0, (s.vel.z - 1 / 4) * Real.exp (-(1 : ℝ) / 6)⟩ := by
    rw [hsd, frictionStep_eq_scale, Vec2.scale, harg]
    congr 1
    norm_num
  set w := (s.vel.z - 1 / 4) * Real.exp (-(1 : ℝ) / 6) with hw
  have hwneg : w < 0 := mul_neg_of_neg_of_pos (by linarith) hepos
  have hwlb : -(3 / 2 : ℝ) ≤ w := by
    have hp : (0 : ℝ) ≤ (s.vel.z + 3 / 2) * Real.exp (-(1 : ℝ) / 6) :=
      mul_nonneg (by linarith) hepos.le
    rw [hw]
    nlinarith [hp, hele, hepos]
  have hwub : w ≤ 3 / 2 := by linarith
  have hwlen : (Vec2.mk (0 : ℝ) w).length = |w| := by
    rw [Vec2.length_mk, show (0 : ℝ) ^ 2 + w ^ 2 = w ^ 2 by ring,
      Real.sqrt_sq_eq_abs]
  have habs : |w| ≤ 3 / 2 := abs_le.2 ⟨hwlb, hwub⟩
  have h4 : (Vec2.mk (0 : ℝ) w).length ≤ maxSpeed true := by
    rw [hwlen]
    have hms : maxSpeed true = 4 := by norm_num [maxSpeed, speed]
    rw [hms]
    linarith
  have hcap : capStep true (⟨0, w⟩ : Vec2) = ⟨0, w⟩ := by
    rw [capStep, if_neg (not_lt.2 h4)]
  have hIne : forwardIntent.length ≠ 0 := by rw [hIlen]; norm_num
  have hsnap : snapStep (⟨0, w⟩ : Vec2) forwardIntent = ⟨0, w⟩ :=
    snapStep_of_intent _ _ hIne
  have hvel2 : ((physicsStep true 10 s forwardIntent (1 / 60)).1).vel =
      ⟨0, w⟩ := by
    show snapStep (capStep true (frictionStep (accelStep s.vel forwardIntent
      (min (1 / 60) 0.1)) (min (1 / 60) 0.1))) forwardIntent = _
    rw [hacc, hfr, hcap, hsnap]
  have hpos2 : ((physicsStep true 10 s forwardIntent (1 / 60)).1).pos =
      positionStep 10 s.pos (⟨0, w⟩ : Vec2) (min (1 / 60) 0.1) := by
    show positionStep 10 s.pos (snapStep (capStep true (frictionStep
      (accelStep s.vel forwardIntent (min (1 / 60) 0.1)) (min (1 / 60) 0.1)))
      forwardIntent) (min (1 / 60) 0.1) = _
    rw [hacc, hfr, hcap, hsnap]
  have hpz : ((physicsStep true 10 s forwardIntent (1 / 60)).1).pos.z =
      clamp (s.pos.z + w * (1 / 60)) (-((10 : ℝ) / 2 - 0.5)) ((10 : ℝ) / 2 - 0.5) := by
    rw [hpos2, hsd]
    rfl
  have harg_le : s.pos.z + w * (1 / 60) ≤ s.pos.z := by linarith
  have hclamp : clamp (s.pos.z + w * (1 / 60)) (-((10 : ℝ) / 2 - 0.5))
      ((10 : ℝ) / 2 - 0.5) =
      max (-((10 : ℝ) / 2 - 0.5)) (s.pos.z + w * (1 / 60)) := by
    rw [clamp, min_eq_right (by linarith)]
  refine ⟨?_, ?_, ?_, ?_, ?_, ?_⟩
  · rw [hvel2]
  · rw [hvel2]
    exact hwlb
  · rw [hvel2]
    exact hwneg.le
  · rw [hpz, hclamp]
    have := le_max_left (-((10 : ℝ) / 2 - 0.5)) (s.pos.z + w * (1 / 60))
    linarith
  · rw [hpz, hclamp]
    exact max_le (by linarith) harg_le
  · rw [hpz, hclamp]
    exact max_le (by linarith) (by linarith)

lemma forwardRun_inv (n : ℕ) :
    (forwardRun n).vel.x = 0 ∧ -(3 / 2 : ℝ) ≤ (forwardRun n).vel.z ∧
    (forwardRun n).vel.z ≤ 0 ∧ -(9 / 2 : ℝ) ≤ (forwardRun n).pos.z ∧
    (forwardRun n).pos.z ≤ 0 := by
  induction n with
  | zero =>
    have h0 : forwardRun 0 = ⟨⟨0, 0⟩, ⟨0, 0⟩, 0⟩ := rfl
    rw [h0]
    refine ⟨rfl, ?_, ?_, ?_, ?_⟩ <;> norm_num
  | succ n ih =>
    obtain ⟨h1, h2, h3, h4, h5⟩ := ih
    obtain ⟨g1, g2, g3, g4, g5, g6⟩ := forward_step (forwardRun n) h1 h2 h3 h4 h5
    exact ⟨g1, g2, g3, g4, g6⟩

lemma forwardRun_speed (n : ℕ) : ((forwardRun n).vel).length ≤ 3 / 2 := by
  obtain ⟨h1, h2, h3, _, _⟩ := forwardRun_inv n
  rw [Vec2.length, h1, show (0 : ℝ) ^ 2 + (forwardRun n).vel.z ^ 2 =
    (forwardRun n).vel.z ^ 2 by ring, Real.sqrt_sq_eq_abs]
  exact abs_le.2 ⟨by linarith, by linarith⟩

/-- Counterexample to C3 as stated: after 2 simulated seconds (120 frames)
of constant unit forward intent at `dt = 1/60`, the velocity magnitude is
NOT `maxSpeed = 4.0` — the friction equilibrium `accel/friction = 1.5`
sits below the cap, so the cap is never reached. -/
theorem forward_speed_counterexample : ((forwardRun 120).vel).length ≠ 4 := by
  have h := forwardRun_speed 120
  intro hc
  rw [hc] at h
  norm_num at h

/-- C3 amended: in the end-to-end forward scenario the speed never reaches
the 4.0 cap — after the final frame it is at most `accel/friction = 1.5` —
while the position does advance monotonically along the movement axis
(forward is `-z`, and `z` is non-increasing on every frame). -/
theorem forward_run_monotone :
    ((forwardRun 120).vel).length ≤ 3 / 2 ∧
    ∀ n : ℕ, (forwardRun (n + 1)).pos.z ≤ (forwardRun n).pos.z := by
  refine ⟨forwardRun_speed 120, fun n => ?_⟩
  obtain ⟨h1, h2, h3, h4, h5⟩ := forwardRun_inv n
  exact (forward_step (forwardRun n) h1 h2 h3 h4 h5).2.2.2.2.1

end NuralPy
